import Mathlib

/-!
Verification of the `fiv::Vector` stable-handle container (slot map) from
`fiv.hpp`.

The container stores elements densely in `m_Data`, hands out recyclable
integer handles (`ID`, a wrapped `size_t`), and maintains a slot table
`m_IDs` (handle index → storage position), a reverse table `m_RevIDs`
(storage position → handle index) and a free list `m_FreeIDSlots` of
recycled handle indices.

Handles are modelled as `Nat` (the `size_t` value inside the C++ `ID`
struct).  Raw `operator[]` accesses into the internal `std::vector`s are
modelled with `List.getD _ 0` / `List.getElem?`; the predicates
`swapOk` / `shiftLoopOk` / `removeOk` record when every raw access of
the corresponding C++ code is within range (out-of-range access being
undefined behaviour in the source).
-/

namespace fiv

/-- State of `fiv::Vector<T>`: the four internal arrays plus the removal
policy chosen at construction time (`m_KeepOrder`). -/
structure Vector (T : Type) where
  keepOrder : Bool
  data : List T
  ids : List Nat
  revIDs : List Nat
  freeIDSlots : List Nat
deriving DecidableEq

/-- The default-constructed container: `Vector() : m_KeepOrder(true)` with
all four arrays empty; `Vector(bool keepOrder)` likewise. -/
def Vector.empty (T : Type) (keepOrder : Bool) : Vector T :=
  ⟨keepOrder, [], [], [], []⟩

/-- `size_t` subtraction: wraps modulo `2 ^ 64`. -/
def usub (a b : Nat) : Nat :=
  (2 ^ 64 + a - b) % 2 ^ 64

/-- `reserve(numElements)`: calls `reserve` on the three vectors, which
changes no observable state.  We return the unchanged state together with
the three requested capacities, in member order
(`m_Data`, `m_IDs`, `m_RevIDs`); the `m_IDs` amount is the `size_t`
expression `numElements - m_FreeIDSlots.size()`. -/
def Vector.reserve (s : Vector T) (numElements : Nat) :
    Vector T × Nat × Nat × Nat :=
  (s, numElements, usub numElements s.freeIDSlots.length, numElements)

/-- `addID(location)`: reuse the back of the free list when possible,
otherwise append a fresh slot-table entry.  Returns the new state and the
issued handle index. -/
def Vector.addID (s : Vector T) (location : Nat) : Vector T × Nat :=
  match s.freeIDSlots.getLast? with
  | some f =>
      ({ s with ids := s.ids.set f location,
                freeIDSlots := s.freeIDSlots.dropLast }, f)
  | none =>
      ({ s with ids := s.ids ++ [location] }, s.ids.length)

/-- Swap the entries of `l` at positions `i` and `j`
(`std::swap(l[i], l[j])`); identity if either index is out of range
(which in the C++ source would be undefined behaviour). -/
def listSwap (l : List α) (i j : Nat) : List α :=
  match l[i]?, l[j]? with
  | some a, some b => (l.set i b).set j a
  | _, _ => l

/-- `swapDataLocation(el1, el2)`: swap the storage positions of the two
elements owned by handles `el1` and `el2`, updating slot table, dense
store and reverse table. -/
def Vector.swapDataLocation (s : Vector T) (el1 el2 : Nat) : Vector T :=
  let idx1 := s.ids.getD el1 0
  let idx2 := s.ids.getD el2 0
  { s with ids := listSwap s.ids el1 el2,
           data := listSwap s.data idx1 idx2,
           revIDs := listSwap s.revIDs idx1 idx2 }

/-- Fuel-indexed form of the order-preserving removal loop
`for (i = indexOf(id); i < m_Data.size() - 1; i++)
   swapDataLocation(idAt(i), idAt(i+1));`.
One unit of fuel is spent per iteration; `swapDataLocation` preserves the
data length, so the guard `i + 1 < m_Data.size()` stops the loop after at
most `m_Data.size() - i` iterations and the encoding with that much fuel
is exact. -/
def Vector.shiftLoopAux : Nat → Vector T → Nat → Vector T
  | 0, s, _ => s
  | n + 1, s, i =>
      if i + 1 < s.data.length then
        Vector.shiftLoopAux n
          (s.swapDataLocation (s.revIDs.getD i 0) (s.revIDs.getD (i + 1) 0))
          (i + 1)
      else s

/-- The shift loop of `remove` in order-preserving mode. -/
def Vector.shiftLoop (s : Vector T) (i : Nat) : Vector T :=
  Vector.shiftLoopAux (s.data.length - i) s i

/-- `clear()`: reset all four arrays (the policy flag survives). -/
def Vector.clear (s : Vector T) : Vector T :=
  { s with data := [], ids := [], revIDs := [], freeIDSlots := [] }

/-- `remove(id)`: close the gap (shift loop in order-preserving mode, swap
with the last element otherwise), push the handle onto the free list, pop
the dense store and reverse table, and clear everything if the container
became empty. -/
def Vector.remove (s : Vector T) (id : Nat) : Vector T :=
  let lastDataID := s.revIDs.getD (s.revIDs.length - 1) 0
  let s1 := if s.keepOrder then s.shiftLoop (s.ids.getD id 0)
            else s.swapDataLocation id lastDataID
  let s2 := { s1 with data := s1.data.dropLast,
                      revIDs := s1.revIDs.dropLast,
                      freeIDSlots := s1.freeIDSlots ++ [id] }
  if s2.data.isEmpty then s2.clear else s2

/-- `push(element)`: append to the dense store, allocate a handle via
`addID`, record the reverse mapping, return the handle. -/
def Vector.push (s : Vector T) (element : T) : Vector T × Nat :=
  let s1 : Vector T := { s with data := s.data ++ [element] }
  let loc := s1.data.length - 1
  let p := s1.addID loc
  ({ p.1 with revIDs := p.1.revIDs ++ [p.2] }, p.2)

/-- `emplace(args...)`: constructs the element in place and then performs
exactly the same bookkeeping as `push`; modelled on the already
constructed element value. -/
def Vector.emplace (s : Vector T) (element : T) : Vector T × Nat :=
  let s1 : Vector T := { s with data := s.data ++ [element] }
  let loc := s1.data.length - 1
  let p := s1.addID loc
  ({ p.1 with revIDs := p.1.revIDs ++ [p.2] }, p.2)

/-- `validID(id)`: `id.value >= 0 && id.value < m_IDs.size()` and `id` is
not found in the free list (the first conjunct is vacuous for the
unsigned `size_t`). -/
def Vector.validID (s : Vector T) (id : Nat) : Bool :=
  decide (id < s.ids.length) && decide (id ∉ s.freeIDSlots)

/-- The two failure causes of checked access, distinguished by the
exception message of `get`: `"ID out of bounds."` versus
`"The object with this id has been deleted."`. -/
inductive GetError where
  | outOfBounds
  | deleted
deriving DecidableEq

deriving instance DecidableEq for Except

/-- `get(id)`: checked access.  On success returns the element at
`m_Data[m_IDs[id.value]]` (as `getElem?`, which is `some _` whenever the
raw C++ access is in range); on failure, the error cause chosen exactly
as in the source: out of range ↦ `outOfBounds`, otherwise ↦
`deleted`. -/
def Vector.get (s : Vector T) (id : Nat) : Except GetError (Option T) :=
  if s.validID id then .ok s.data[s.ids.getD id 0]?
  else if id < s.ids.length then .error .deleted
  else .error .outOfBounds

/-- `idAt(index)`: `m_RevIDs[index]`. -/
def Vector.idAt (s : Vector T) (index : Nat) : Nat :=
  s.revIDs.getD index 0

/-- `size()`: `m_Data.size()`. -/
def Vector.size (s : Vector T) : Nat :=
  s.data.length

/-- `dataAt(index)`: `m_Data[index]`. -/
def Vector.dataAt (s : Vector T) (index : Nat) : Option T :=
  s.data[index]?

/-- `indexOf(id)`: `m_IDs[id.value]`. -/
def Vector.indexOf (s : Vector T) (id : Nat) : Nat :=
  s.ids.getD id 0

/-- The element a handle addresses: `m_Data[m_IDs[id.value]]`.  This is
the shared addressing expression of `get` (checked) and `operator[]`
(unchecked). -/
def Vector.valueOf (s : Vector T) (id : Nat) : Option T :=
  s.data[s.ids.getD id 0]?

/-- All raw accesses of `swapDataLocation(el1, el2)` are within range:
`m_IDs[el1]`, `m_IDs[el2]`, and the `m_Data` / `m_RevIDs` accesses at the
two read positions.  The C++ code performs these accesses unchecked;
out-of-range access is undefined behaviour. -/
def Vector.swapOk (s : Vector T) (el1 el2 : Nat) : Bool :=
  decide (el1 < s.ids.length) && decide (el2 < s.ids.length) &&
  decide (s.ids.getD el1 0 < s.data.length) &&
  decide (s.ids.getD el2 0 < s.data.length) &&
  decide (s.ids.getD el1 0 < s.revIDs.length) &&
  decide (s.ids.getD el2 0 < s.revIDs.length)

/-- Fuel-indexed check that all raw accesses of the order-preserving
removal loop are within range. -/
def Vector.shiftLoopOkAux : Nat → Vector T → Nat → Bool
  | 0, _, _ => true
  | n + 1, s, i =>
      if i + 1 < s.data.length then
        decide (i < s.revIDs.length) && decide (i + 1 < s.revIDs.length) &&
        s.swapOk (s.revIDs.getD i 0) (s.revIDs.getD (i + 1) 0) &&
        Vector.shiftLoopOkAux n
          (s.swapDataLocation (s.revIDs.getD i 0) (s.revIDs.getD (i + 1) 0))
          (i + 1)
      else true

/-- All raw accesses of the shift loop are within range. -/
def Vector.shiftLoopOk (s : Vector T) (i : Nat) : Bool :=
  Vector.shiftLoopOkAux (s.data.length - i) s i

/-- All raw accesses performed by `remove(id)` are within range: the
initial `m_IDs[id.value]` read, `m_RevIDs.back()`, the loop or the final
swap, and the two `pop_back`s (`m_Data`, `m_RevIDs` non-empty).  `remove`
itself performs no validity check, so when this is `false` the C++ call
has undefined behaviour. -/
def Vector.removeOk (s : Vector T) (id : Nat) : Bool :=
  decide (id < s.ids.length) && decide (0 < s.revIDs.length) &&
  decide (0 < s.data.length) &&
  (if s.keepOrder then s.shiftLoopOk (s.ids.getD id 0)
   else s.swapOk id (s.revIDs.getD (s.revIDs.length - 1) 0))

/-- `remove(id)` with the reset-on-empty step
(`if (m_Data.empty()) clear();`) deleted, used only to compare the
observable behaviour of the container with and without the reset. -/
def Vector.removeNoReset (s : Vector T) (id : Nat) : Vector T :=
  let lastDataID := s.revIDs.getD (s.revIDs.length - 1) 0
  let s1 := if s.keepOrder then s.shiftLoop (s.ids.getD id 0)
            else s.swapDataLocation id lastDataID
  { s1 with data := s1.data.dropLast,
            revIDs := s1.revIDs.dropLast,
            freeIDSlots := s1.freeIDSlots ++ [id] }

/-! ## Traces of public operations -/

/-- A public mutating operation of the container. -/
inductive Op (T : Type) where
  | push : T → Op T
  | remove : Nat → Op T
  | clear : Op T

/-- The externally visible event of one operation: the handle returned
by `push`/`emplace`, the handle passed to `remove`, or a `clear` call. -/
inductive Event where
  | pushed : Nat → Event
  | removed : Nat → Event
  | cleared : Event
deriving DecidableEq

/-- Execute one operation, returning the new state and its event. -/
def Vector.step (s : Vector T) : Op T → Vector T × Event
  | .push v => ((s.push v).1, .pushed (s.push v).2)
  | .remove h => (s.remove h, .removed h)
  | .clear => (s.clear, .cleared)

/-- Execute a list of operations from a starting state, collecting the
event log. -/
def Vector.runFrom (s : Vector T) : List (Op T) → Vector T × List Event
  | [] => (s, [])
  | op :: ops =>
      let p := s.step op
      let q := p.1.runFrom ops
      (q.1, p.2 :: q.2)

/-- The precondition of a single operation: `remove` must be given a
currently valid handle (see `removeOk`); `push` and `clear` are always
allowed. -/
def Vector.legalOp (s : Vector T) : Op T → Bool
  | Op.remove h => s.validID h
  | _ => true

/-- A sequence of operations is legal when every `remove` is applied to a
handle that is valid at that point (the contract of `remove`). -/
def Vector.legalFrom (s : Vector T) : List (Op T) → Bool
  | [] => true
  | op :: ops => s.legalOp op && (s.step op).1.legalFrom ops

/-- `h` is live according to an event log: some `pushed h` event is
followed by no `removed h` and no `cleared` event. -/
def LiveInLog (log : List Event) (h : Nat) : Prop :=
  ∃ l1 l2, log = l1 ++ Event.pushed h :: l2 ∧
    Event.removed h ∉ l2 ∧ Event.cleared ∉ l2

/-- The number of live handles: indices within the slot table range that
are not on the free list. -/
def Vector.liveCount (s : Vector T) : Nat :=
  ((Finset.range s.ids.length).filter (fun h => h ∉ s.freeIDSlots)).card

/-! ## The data-model invariant -/

/-- Well-formedness of a container state (§3 of the data model):
free-list entries are in range and duplicate-free, the slot table is as
long as the dense store plus the free list, the reverse table is as long
as the dense store, and slot table and reverse table are mutually inverse
bijections between live handles and storage positions. -/
def Vector.Wf (s : Vector T) : Prop :=
  (∀ f ∈ s.freeIDSlots, f < s.ids.length) ∧
  s.freeIDSlots.Nodup ∧
  s.ids.length = s.data.length + s.freeIDSlots.length ∧
  s.revIDs.length = s.data.length ∧
  (∀ h, h < s.ids.length → h ∉ s.freeIDSlots →
    s.ids.getD h 0 < s.data.length ∧ s.revIDs.getD (s.ids.getD h 0) 0 = h) ∧
  (∀ p, p < s.data.length →
    s.revIDs.getD p 0 < s.ids.length ∧ s.revIDs.getD p 0 ∉ s.freeIDSlots ∧
    s.ids.getD (s.revIDs.getD p 0) 0 = p)

instance (s : Vector T) : Decidable s.Wf := by
  unfold Vector.Wf
  infer_instance

/-! ## Basic lemmas -/

@[simp] theorem length_listSwap (l : List α) (i j : Nat) :
    (listSwap l i j).length = l.length := by
  unfold listSwap
  cases h1 : l[i]? <;> cases h2 : l[j]? <;> simp

@[simp] theorem data_length_swapDataLocation (s : Vector T) (a b : Nat) :
    (s.swapDataLocation a b).data.length = s.data.length := by
  simp [Vector.swapDataLocation]

@[simp] theorem ids_length_swapDataLocation (s : Vector T) (a b : Nat) :
    (s.swapDataLocation a b).ids.length = s.ids.length := by
  simp [Vector.swapDataLocation]

@[simp] theorem revIDs_length_swapDataLocation (s : Vector T) (a b : Nat) :
    (s.swapDataLocation a b).revIDs.length = s.revIDs.length := by
  simp [Vector.swapDataLocation]

@[simp] theorem keepOrder_swapDataLocation (s : Vector T) (a b : Nat) :
    (s.swapDataLocation a b).keepOrder = s.keepOrder := by
  simp [Vector.swapDataLocation]

@[simp] theorem freeIDSlots_swapDataLocation (s : Vector T) (a b : Nat) :
    (s.swapDataLocation a b).freeIDSlots = s.freeIDSlots := by
  simp [Vector.swapDataLocation]

theorem wf_empty (T : Type) (ko : Bool) : (Vector.empty T ko).Wf := by
  refine ⟨?_, ?_, ?_, ?_, ?_, ?_⟩ <;> simp [Vector.empty]

theorem validID_iff (s : Vector T) (h : Nat) :
    s.validID h = true ↔ h < s.ids.length ∧ h ∉ s.freeIDSlots := by
  simp [Vector.validID]

/-! ## List helper lemmas -/

theorem getD_append_left {l l2 : List Nat} {i : Nat} (h : i < l.length) :
    (l ++ l2).getD i 0 = l.getD i 0 := by
  simp [List.getD_eq_getElem?_getD, List.getElem?_append_left h]

theorem getD_append_self {l : List Nat} {a : Nat} :
    (l ++ [a]).getD l.length 0 = a := by
  simp [List.getD_eq_getElem?_getD]

theorem getD_set_self {l : List Nat} {i a : Nat} (h : i < l.length) :
    (l.set i a).getD i 0 = a := by
  simp [List.getD_eq_getElem?_getD, List.getElem?_set_self h]

theorem getD_set_ne {l : List Nat} {i j a : Nat} (h : i ≠ j) :
    (l.set i a).getD j 0 = l.getD j 0 := by
  simp [List.getD_eq_getElem?_getD, List.getElem?_set_ne h]

theorem getD_dropLast {l : List Nat} {i : Nat} (h : i < l.length - 1) :
    l.dropLast.getD i 0 = l.getD i 0 := by
  rw [List.getD_eq_getElem?_getD, List.getD_eq_getElem?_getD,
    List.getElem?_dropLast, if_pos h]

theorem getElem?_dropLast_lt {l : List α} {i : Nat} (h : i < l.length - 1) :
    l.dropLast[i]? = l[i]? := by
  simp [List.getElem?_dropLast, h]

theorem listSwap_oob {l : List α} {i j : Nat}
    (h : ¬ (i < l.length ∧ j < l.length)) : listSwap l i j = l := by
  unfold listSwap
  cases h1 : l[i]? <;> cases h2 : l[j]? <;> try rfl
  rw [List.getElem?_eq_some_iff] at h1 h2
  exact absurd ⟨h1.1, h2.1⟩ h

theorem getElem?_listSwap {l : List α} {i j : Nat}
    (hi : i < l.length) (hj : j < l.length) (k : Nat) :
    (listSwap l i j)[k]? =
      if k = j then l[i]? else if k = i then l[j]? else l[k]? := by
  have h1 : l[i]? = some l[i] := List.getElem?_eq_getElem hi
  have h2 : l[j]? = some l[j] := List.getElem?_eq_getElem hj
  unfold listSwap
  rw [h1, h2]
  by_cases hkj : k = j
  · subst hkj
    simp [List.getElem?_set_self, hj, List.length_set]
  · by_cases hki : k = i
    · subst hki
      rw [List.getElem?_set_ne (fun hh => hkj hh.symm),
        List.getElem?_set_self hi, if_neg hkj, if_pos rfl]
    · rw [List.getElem?_set_ne (fun hh => hkj hh.symm),
        List.getElem?_set_ne (fun hh => hki hh.symm), if_neg hkj, if_neg hki]

theorem getD_listSwap {l : List Nat} {i j : Nat}
    (hi : i < l.length) (hj : j < l.length) (k : Nat) :
    (listSwap l i j).getD k 0 =
      if k = j then l.getD i 0 else if k = i then l.getD j 0
      else l.getD k 0 := by
  rw [List.getD_eq_getElem?_getD, getElem?_listSwap hi hj]
  by_cases hkj : k = j
  · rw [if_pos hkj, if_pos hkj, List.getD_eq_getElem?_getD]
  · rw [if_neg hkj, if_neg hkj]
    by_cases hki : k = i
    · rw [if_pos hki, if_pos hki, List.getD_eq_getElem?_getD]
    · rw [if_neg hki, if_neg hki, List.getD_eq_getElem?_getD]

/-! ## `push` lemmas -/

theorem push_eq_fresh (s : Vector T) (v : T) (hf : s.freeIDSlots = []) :
    s.push v =
      ({ keepOrder := s.keepOrder, data := s.data ++ [v],
         ids := s.ids ++ [s.data.length],
         revIDs := s.revIDs ++ [s.ids.length], freeIDSlots := [] },
       s.ids.length) := by
  simp [Vector.push, Vector.addID, hf]

theorem push_eq_reuse (s : Vector T) (v : T) (f : Nat)
    (hf : s.freeIDSlots.getLast? = some f) :
    s.push v =
      ({ keepOrder := s.keepOrder, data := s.data ++ [v],
         ids := s.ids.set f s.data.length,
         revIDs := s.revIDs ++ [f],
         freeIDSlots := s.freeIDSlots.dropLast }, f) := by
  simp [Vector.push, Vector.addID, hf]

theorem validID_push (s : Vector T) (v : T) (hW : s.Wf) (h : Nat) :
    ((s.push v).1.validID h = true ↔
      h = (s.push v).2 ∨ s.validID h = true) := by
  obtain ⟨hW1, hW2, hW3, hW4, hW5, hW6⟩ := hW
  cases hfl : s.freeIDSlots.getLast? with
  | none =>
      have hnil : s.freeIDSlots = [] := List.getLast?_eq_none_iff.mp hfl
      rw [push_eq_fresh s v hnil]
      simp [validID_iff, hnil]
      omega
  | some f =>
      obtain ⟨fs, hfs⟩ := List.getLast?_eq_some_iff.mp hfl
      have hflen : f < s.ids.length := hW1 f (by rw [hfs]; simp)
      have hfnodup : f ∉ fs := by
        have := hW2
        rw [hfs, List.nodup_append] at this
        intro hmem
        exact this.2.2 hmem (by simp)
      rw [push_eq_reuse s v f hfl]
      simp only [validID_iff, List.length_set, hfs, List.dropLast_concat,
        List.mem_append, List.mem_singleton]
      constructor
      · rintro ⟨hlt, hnm⟩
        by_cases hhf : h = f
        · exact Or.inl hhf
        · exact Or.inr ⟨hlt, by tauto⟩
      · rintro (rfl | ⟨hlt, hnm⟩)
        · exact ⟨hflen, hfnodup⟩
        · refine ⟨hlt, ?_⟩
          tauto

theorem wf_push (s : Vector T) (v : T) (hW : s.Wf) : (s.push v).1.Wf := by
  obtain ⟨hW1, hW2, hW3, hW4, hW5, hW6⟩ := hW
  cases hfl : s.freeIDSlots.getLast? with
  | none =>
      have hnil : s.freeIDSlots = [] := List.getLast?_eq_none_iff.mp hfl
      rw [push_eq_fresh s v hnil]
      rw [hnil] at hW1 hW3 hW5 hW6
      simp only [List.length_nil, Nat.add_zero] at hW3
      refine ⟨by simp, by simp, by simp [hW3], by simp [hW4], ?_, ?_⟩
      · intro h hlt _
        simp only [List.length_append, List.length_singleton] at hlt
        by_cases hh : h = s.ids.length
        · subst hh
          constructor
          · rw [getD_append_self]
            simp
          · rw [getD_append_self, ← hW4, getD_append_self]
        · have hlt2 : h < s.ids.length := by omega
          obtain ⟨ha, hb⟩ := hW5 h hlt2 (by simp)
          constructor
          · rw [getD_append_left hlt2]
            simp only [List.length_append, List.length_singleton]
            omega
          · have ha2 : s.ids.getD h 0 < s.revIDs.length := by
              rw [hW4]
              exact ha
            rw [getD_append_left hlt2, getD_append_left ha2]
            exact hb
      · intro p hlt
        simp only [List.length_append, List.length_singleton] at hlt
        by_cases hp : p = s.data.length
        · subst hp
          rw [← hW4, getD_append_self]
          refine ⟨by simp, by simp, ?_⟩
          rw [getD_append_self]
        · have hlt2 : p < s.data.length := by omega
          rw [← hW4] at hlt2
          rw [getD_append_left hlt2]
          rw [hW4] at hlt2
          obtain ⟨ha, hb, hc⟩ := hW6 p hlt2
          refine ⟨?_, by simp, ?_⟩
          · simp only [List.length_append, List.length_singleton]
            omega
          · rw [getD_append_left ha]
            exact hc
  | some f =>
      obtain ⟨fs, hfs⟩ := List.getLast?_eq_some_iff.mp hfl
      have hflen : f < s.ids.length := hW1 f (by rw [hfs]; simp)
      have hfsnodup : fs.Nodup ∧ f ∉ fs := by
        rw [hfs, List.nodup_append] at hW2
        exact ⟨hW2.1, fun hmem => hW2.2.2 hmem (by simp)⟩
      rw [push_eq_reuse s v f hfl]
      rw [hfs, List.dropLast_concat]
      refine ⟨?_, hfsnodup.1, ?_, by simp [hW4], ?_, ?_⟩
      · intro g hg
        simp only [List.length_set]
        exact hW1 g (by rw [hfs]; exact List.mem_append_left _ hg)
      · rw [hfs] at hW3
        simp only [List.length_set, List.length_append, List.length_singleton]
        simp [List.length_append] at hW3
        omega
      · intro h hlt hnm
        simp only [List.length_set] at hlt
        by_cases hh : h = f
        · subst hh
          constructor
          · rw [getD_set_self hflen]
            simp
          · rw [getD_set_self hflen, ← hW4, getD_append_self]
        · have hnm2 : h ∉ s.freeIDSlots := by
            rw [hfs]
            simp
            tauto
          obtain ⟨ha, hb⟩ := hW5 h hlt hnm2
          constructor
          · rw [getD_set_ne (fun hc => hh hc.symm)]
            simp only [List.length_append, List.length_singleton]
            omega
          · rw [getD_set_ne (fun hc => hh hc.symm), getD_append_left]
            · exact hb
            · rw [hW4]
              exact ha
      · intro p hlt
        simp only [List.length_append, List.length_singleton] at hlt
        by_cases hp : p = s.data.length
        · subst hp
          rw [← hW4, getD_append_self]
          refine ⟨by simp [hflen], hfsnodup.2, ?_⟩
          rw [getD_set_self hflen, hW4]
        · have hlt2 : p < s.data.length := by omega
          rw [← hW4] at hlt2
          rw [getD_append_left hlt2]
          rw [hW4] at hlt2
          obtain ⟨ha, hb, hc⟩ := hW6 p hlt2
          have hbf : s.revIDs.getD p 0 ≠ f := by
            intro hcontra
            rw [hfs] at hb
            exact hb (by rw [hcontra]; simp)
          have hbfs : s.revIDs.getD p 0 ∉ fs := by
            intro hcontra
            rw [hfs] at hb
            exact hb (List.mem_append_left _ hcontra)
          refine ⟨?_, hbfs, ?_⟩
          · simp only [List.length_set]
            exact ha
          · rw [getD_set_ne (fun hc2 => hbf hc2.symm)]
            exact hc

theorem get_push (s : Vector T) (v : T) (hW : s.Wf) :
    (s.push v).1.get (s.push v).2 = .ok (some v) := by
  have hvalid : (s.push v).1.validID (s.push v).2 = true :=
    (validID_push s v hW _).mpr (Or.inl rfl)
  rw [Vector.get, if_pos hvalid]
  obtain ⟨hW1, hW2, hW3, hW4, hW5, hW6⟩ := hW
  cases hfl : s.freeIDSlots.getLast? with
  | none =>
      have hnil : s.freeIDSlots = [] := List.getLast?_eq_none_iff.mp hfl
      rw [push_eq_fresh s v hnil]
      simp only [getD_append_self]
      simp
  | some f =>
      obtain ⟨fs, hfs⟩ := List.getLast?_eq_some_iff.mp hfl
      have hflen : f < s.ids.length := hW1 f (by rw [hfs]; simp)
      rw [push_eq_reuse s v f hfl]
      simp only [getD_set_self hflen]
      simp

theorem keepOrder_push (s : Vector T) (v : T) :
    (s.push v).1.keepOrder = s.keepOrder := by
  cases hfl : s.freeIDSlots.getLast? with
  | none => rw [push_eq_fresh s v (List.getLast?_eq_none_iff.mp hfl)]
  | some f => rw [push_eq_reuse s v f hfl]

theorem emplace_eq_push (s : Vector T) (v : T) : s.emplace v = s.push v := rfl

/-! ## `swapDataLocation` lemmas -/

@[simp] theorem ids_swapDataLocation (s : Vector T) (a b : Nat) :
    (s.swapDataLocation a b).ids = listSwap s.ids a b := rfl

@[simp] theorem data_swapDataLocation (s : Vector T) (a b : Nat) :
    (s.swapDataLocation a b).data =
      listSwap s.data (s.ids.getD a 0) (s.ids.getD b 0) := rfl

@[simp] theorem revIDs_swapDataLocation (s : Vector T) (a b : Nat) :
    (s.swapDataLocation a b).revIDs =
      listSwap s.revIDs (s.ids.getD a 0) (s.ids.getD b 0) := rfl

theorem wf_swapDataLocation (s : Vector T) (el1 el2 : Nat) (hW : s.Wf)
    (h1 : el1 < s.ids.length) (h1f : el1 ∉ s.freeIDSlots)
    (h2 : el2 < s.ids.length) (h2f : el2 ∉ s.freeIDSlots) :
    (s.swapDataLocation el1 el2).Wf := by
  obtain ⟨hW1, hW2, hW3, hW4, hW5, hW6⟩ := hW
  obtain ⟨hp1, hr1⟩ := hW5 el1 h1 h1f
  obtain ⟨hp2, hr2⟩ := hW5 el2 h2 h2f
  have hp1r : s.ids.getD el1 0 < s.revIDs.length := by rw [hW4]; exact hp1
  have hp2r : s.ids.getD el2 0 < s.revIDs.length := by rw [hW4]; exact hp2
  refine ⟨?_, hW2, ?_, ?_, ?_, ?_⟩
  · simpa using hW1
  · simpa using hW3
  · simpa using hW4
  · intro g hg hgf
    simp only [ids_swapDataLocation, revIDs_swapDataLocation,
      length_listSwap, data_length_swapDataLocation] at hg ⊢
    rw [getD_listSwap h1 h2 g]
    by_cases hg2 : g = el2
    · rw [hg2, if_pos rfl, getD_listSwap hp1r hp2r]
      refine ⟨hp1, ?_⟩
      by_cases hpp : s.ids.getD el1 0 = s.ids.getD el2 0
      · rw [if_pos hpp, hpp, hr2]
      · rw [if_neg hpp, if_pos rfl, hr2]
    · rw [if_neg hg2]
      by_cases hg1 : g = el1
      · rw [hg1, if_pos rfl, getD_listSwap hp1r hp2r, if_pos rfl]
        exact ⟨hp2, hr1⟩
      · rw [if_neg hg1]
        obtain ⟨hpg, hrg⟩ := hW5 g hg hgf
        have hne2 : s.ids.getD g 0 ≠ s.ids.getD el2 0 := by
          intro hc
          rw [hc, hr2] at hrg
          exact hg2 hrg.symm
        have hne1 : s.ids.getD g 0 ≠ s.ids.getD el1 0 := by
          intro hc
          rw [hc, hr1] at hrg
          exact hg1 hrg.symm
        rw [getD_listSwap hp1r hp2r, if_neg hne2, if_neg hne1]
        exact ⟨hpg, hrg⟩
  · intro q hq
    simp only [ids_swapDataLocation, revIDs_swapDataLocation,
      length_listSwap, data_length_swapDataLocation] at hq ⊢
    rw [getD_listSwap hp1r hp2r q]
    by_cases hq2 : q = s.ids.getD el2 0
    · subst hq2
      rw [if_pos rfl, hr1, getD_listSwap h1 h2 el1]
      by_cases he : el1 = el2
      · rw [if_pos he]
        refine ⟨h1, h1f, ?_⟩
        rw [he]
      · rw [if_neg he, if_pos rfl]
        exact ⟨h1, h1f, rfl⟩
    · rw [if_neg hq2]
      by_cases hq1 : q = s.ids.getD el1 0
      · subst hq1
        rw [if_pos rfl, hr2, getD_listSwap h1 h2 el2, if_pos rfl]
        exact ⟨h2, h2f, rfl⟩
      · rw [if_neg hq1]
        obtain ⟨ho1, ho2, ho3⟩ := hW6 q hq
        have hoe2 : s.revIDs.getD q 0 ≠ el2 := by
          intro hc
          rw [hc] at ho3
          exact hq2 ho3.symm
        have hoe1 : s.revIDs.getD q 0 ≠ el1 := by
          intro hc
          rw [hc] at ho3
          exact hq1 ho3.symm
        rw [getD_listSwap h1 h2, if_neg hoe2, if_neg hoe1]
        exact ⟨ho1, ho2, ho3⟩

theorem valueOf_swapDataLocation (s : Vector T) (el1 el2 g : Nat)
    (hW : s.Wf)
    (h1 : el1 < s.ids.length) (h1f : el1 ∉ s.freeIDSlots)
    (h2 : el2 < s.ids.length) (h2f : el2 ∉ s.freeIDSlots)
    (hg : g < s.ids.length) (hgf : g ∉ s.freeIDSlots) :
    (s.swapDataLocation el1 el2).valueOf g = s.valueOf g := by
  obtain ⟨hW1, hW2, hW3, hW4, hW5, hW6⟩ := hW
  obtain ⟨hp1, hr1⟩ := hW5 el1 h1 h1f
  obtain ⟨hp2, hr2⟩ := hW5 el2 h2 h2f
  unfold Vector.valueOf
  simp only [ids_swapDataLocation, data_swapDataLocation]
  rw [getD_listSwap h1 h2 g]
  by_cases hg2 : g = el2
  · rw [hg2, if_pos rfl, getElem?_listSwap hp1 hp2]
    by_cases hpp : s.ids.getD el1 0 = s.ids.getD el2 0
    · rw [if_pos hpp, hpp]
    · rw [if_neg hpp, if_pos rfl]
  · rw [if_neg hg2]
    by_cases hg1 : g = el1
    · rw [hg1, if_pos rfl, getElem?_listSwap hp1 hp2, if_pos rfl]
    · rw [if_neg hg1]
      obtain ⟨hpg, hrg⟩ := hW5 g hg hgf
      have hne2 : s.ids.getD g 0 ≠ s.ids.getD el2 0 := by
        intro hc
        rw [hc, hr2] at hrg
        exact hg2 hrg.symm
      have hne1 : s.ids.getD g 0 ≠ s.ids.getD el1 0 := by
        intro hc
        rw [hc, hr1] at hrg
        exact hg1 hrg.symm
      rw [getElem?_listSwap hp1 hp2, if_neg hne2, if_neg hne1]

/-! ## The order-preserving shift loop -/

/-- Master description of the shift loop of `remove` in order-preserving
mode, starting at position `i` of a well-formed state with enough fuel:
the invariant is preserved, policy/free list/lengths do not change, the
element (and owner) initially at position `i` bubbles to the back while
everything after it moves one slot toward the front, and every live
handle still addresses the same value. -/
theorem shiftLoopAux_spec (n : Nat) : ∀ (s : Vector T) (i : Nat),
    s.data.length ≤ i + n → s.Wf → i < s.data.length →
    (Vector.shiftLoopAux n s i).Wf ∧
    (Vector.shiftLoopAux n s i).keepOrder = s.keepOrder ∧
    (Vector.shiftLoopAux n s i).freeIDSlots = s.freeIDSlots ∧
    (Vector.shiftLoopAux n s i).ids.length = s.ids.length ∧
    (Vector.shiftLoopAux n s i).data.length = s.data.length ∧
    (Vector.shiftLoopAux n s i).revIDs.length = s.revIDs.length ∧
    (∀ k, (Vector.shiftLoopAux n s i).data[k]? =
      if k < i then s.data[k]?
      else if k < s.data.length - 1 then s.data[k + 1]?
      else if k = s.data.length - 1 then s.data[i]?
      else none) ∧
    (∀ k, (Vector.shiftLoopAux n s i).revIDs[k]? =
      if k < i then s.revIDs[k]?
      else if k < s.data.length - 1 then s.revIDs[k + 1]?
      else if k = s.data.length - 1 then s.revIDs[i]?
      else none) ∧
    (∀ g, g < s.ids.length → g ∉ s.freeIDSlots →
      (Vector.shiftLoopAux n s i).valueOf g = s.valueOf g) := by
  induction n with
  | zero =>
      intro s i hn hW hi
      omega
  | succ n ih =>
      intro s i hn hW hi
      by_cases h : i + 1 < s.data.length
      · obtain ⟨hW1, hW2, hW3, hW4, hW5, hW6⟩ := id hW
        obtain ⟨he1, he1f, hi1⟩ := hW6 i hi
        obtain ⟨he2, he2f, hi2⟩ := hW6 (i + 1) h
        have hi1r : i < s.revIDs.length := by omega
        have hi2r : i + 1 < s.revIDs.length := by omega
        have hWs := wf_swapDataLocation s _ _ hW he1 he1f he2 he2f
        have hb : (s.swapDataLocation (s.revIDs.getD i 0)
            (s.revIDs.getD (i + 1) 0)).data.length ≤ i + 1 + n := by
          simp
          omega
        have ihc := ih _ (i + 1) hb hWs (by simpa using h)
        obtain ⟨ic1, ic2, ic3, ic4, ic5, ic6, ic7, ic8, ic9⟩ := ihc
        have hsd : ∀ k,
            (s.swapDataLocation (s.revIDs.getD i 0)
              (s.revIDs.getD (i + 1) 0)).data[k]? =
            if k = i + 1 then s.data[i]?
            else if k = i then s.data[i + 1]?
            else s.data[k]? := by
          intro k
          rw [data_swapDataLocation, hi1, hi2, getElem?_listSwap hi h]
        have hsr : ∀ k,
            (s.swapDataLocation (s.revIDs.getD i 0)
              (s.revIDs.getD (i + 1) 0)).revIDs[k]? =
            if k = i + 1 then s.revIDs[i]?
            else if k = i then s.revIDs[i + 1]?
            else s.revIDs[k]? := by
          intro k
          rw [revIDs_swapDataLocation, hi1, hi2, getElem?_listSwap hi1r hi2r]
        simp only [Vector.shiftLoopAux]
        rw [if_pos h]
        refine ⟨ic1, ?_, ?_, ?_, ?_, ?_, ?_, ?_, ?_⟩
        · rw [ic2]
          simp
        · rw [ic3]
          simp
        · rw [ic4]
          simp
        · rw [ic5]
          simp
        · rw [ic6]
          simp
        · intro k
          rw [ic7 k]
          simp only [data_length_swapDataLocation, hsd]
          split_ifs <;> first
            | rfl
            | omega
            | (congr 1; omega)
        · intro k
          rw [ic8 k]
          simp only [data_length_swapDataLocation, hsr]
          split_ifs <;> first
            | rfl
            | omega
            | (congr 1; omega)
        · intro g hg hgf
          rw [ic9 g (by simpa using hg) (by simpa using hgf)]
          exact valueOf_swapDataLocation s _ _ g hW he1 he1f he2 he2f hg hgf
      · obtain ⟨hW1, hW2, hW3, hW4, hW5, hW6⟩ := id hW
        simp only [Vector.shiftLoopAux]
        rw [if_neg h]
        refine ⟨hW, rfl, rfl, rfl, rfl, rfl, ?_, ?_, fun g _ _ => rfl⟩
        · intro k
          split_ifs <;> first
            | rfl
            | omega
            | (congr 1; omega)
            | (apply List.getElem?_eq_none; omega)
        · intro k
          split_ifs <;> first
            | rfl
            | omega
            | (congr 1; omega)
            | (apply List.getElem?_eq_none; omega)

/-- `shiftLoop_spec` specialised to the fuel actually supplied by
`shiftLoop`. -/
theorem shiftLoop_spec (s : Vector T) (i : Nat) (hW : s.Wf)
    (hi : i < s.data.length) :
    (s.shiftLoop i).Wf ∧
    (s.shiftLoop i).keepOrder = s.keepOrder ∧
    (s.shiftLoop i).freeIDSlots = s.freeIDSlots ∧
    (s.shiftLoop i).ids.length = s.ids.length ∧
    (s.shiftLoop i).data.length = s.data.length ∧
    (s.shiftLoop i).revIDs.length = s.revIDs.length ∧
    (∀ k, (s.shiftLoop i).data[k]? =
      if k < i then s.data[k]?
      else if k < s.data.length - 1 then s.data[k + 1]?
      else if k = s.data.length - 1 then s.data[i]?
      else none) ∧
    (∀ k, (s.shiftLoop i).revIDs[k]? =
      if k < i then s.revIDs[k]?
      else if k < s.data.length - 1 then s.revIDs[k + 1]?
      else if k = s.data.length - 1 then s.revIDs[i]?
      else none) ∧
    (∀ g, g < s.ids.length → g ∉ s.freeIDSlots →
      (s.shiftLoop i).valueOf g = s.valueOf g) :=
  shiftLoopAux_spec (s.data.length - i) s i (by omega) hW hi

/-! ## `remove` lemmas -/

theorem getElem?_eq_some_getD {l : List Nat} {i : Nat} (h : i < l.length) :
    l[i]? = some (l.getD i 0) := by
  rw [List.getD_eq_getElem?_getD, List.getElem?_eq_getElem h]
  rfl

/-- Common tail of `remove`: starting from the state `t` produced by the
shift loop or the final swap, push the handle on the free list, pop the
dense store and the reverse table, and clear everything if the store
became empty. -/
theorem remove_post (s t r : Vector T) (x : Nat)
    (hW : s.Wf) (hid : x < s.ids.length) (hidf : x ∉ s.freeIDSlots)
    (htW : t.Wf) (htf : t.freeIDSlots = s.freeIDSlots)
    (htil : t.ids.length = s.ids.length)
    (htdl : t.data.length = s.data.length)
    (htrl : t.revIDs.length = s.revIDs.length)
    (htlast : t.revIDs.getD (s.data.length - 1) 0 = x)
    (hval : ∀ g, g < s.ids.length → g ∉ s.freeIDSlots →
      t.valueOf g = s.valueOf g)
    (htk : t.keepOrder = s.keepOrder)
    (hr : r = if (t.data.dropLast).isEmpty then
        Vector.clear { t with
                       data := t.data.dropLast,
                       revIDs := t.revIDs.dropLast,
                       freeIDSlots := t.freeIDSlots ++ [x] }
      else { t with
             data := t.data.dropLast,
             revIDs := t.revIDs.dropLast,
             freeIDSlots := t.freeIDSlots ++ [x] }) :
    r.Wf ∧ r.keepOrder = s.keepOrder ∧
    r.data.length = s.data.length - 1 ∧
    (∀ g, (r.validID g = true ↔ (s.validID g = true ∧ g ≠ x))) ∧
    (∀ g, s.validID g = true → g ≠ x → r.valueOf g = s.valueOf g) ∧
    (1 < s.data.length → r.freeIDSlots = s.freeIDSlots ++ [x]) ∧
    (s.data.length = 1 → r = ⟨s.keepOrder, [], [], [], []⟩) ∧
    r.data = t.data.dropLast := by
  obtain ⟨hW1, hW2, hW3, hW4, hW5, hW6⟩ := hW
  obtain ⟨hpx, hrx⟩ := hW5 x hid hidf
  have hL1 : 1 ≤ s.data.length := by omega
  obtain ⟨t1, t2, t3, t4, t5, t6⟩ := htW
  have hxid := t6 (s.data.length - 1) (by omega)
  rw [htlast] at hxid
  obtain ⟨hxid1, hxid2, hxid3⟩ := hxid
  by_cases hL : s.data.length = 1
  · -- the store becomes empty: everything is cleared
    have hnil : t.data.dropLast = [] := by
      rw [← List.length_eq_zero]
      simp [htdl, hL]
    have huniq : ∀ g, s.validID g = true → g = x := by
      intro g hg
      obtain ⟨hg1, hg2⟩ := (validID_iff s g).mp hg
      obtain ⟨hpg, hrg⟩ := hW5 g hg1 hg2
      have h0g : s.ids.getD g 0 = 0 := by omega
      have h0x : s.ids.getD x 0 = 0 := by omega
      rw [h0g] at hrg
      rw [h0x] at hrx
      rw [← hrg, ← hrx]
    have hre : r = ⟨s.keepOrder, [], [], [], []⟩ := by
      rw [hr, hnil]
      rw [← htk]
      rfl
    rw [hre]
    refine ⟨⟨by simp, by simp, by simp, by simp, by simp, by simp⟩,
      rfl, by simp [hL], ?_, ?_, fun hc => absurd hc (by omega),
      fun _ => rfl, by rw [hnil]⟩
    · intro g
      constructor
      · intro hg
        rw [validID_iff] at hg
        simp at hg
      · rintro ⟨hg, hgx⟩
        exact absurd (huniq g hg) hgx
    · intro g hg hgx
      exact absurd (huniq g hg) hgx
  · -- at least one element remains
    have hL2 : 1 < s.data.length := by omega
    have hcond : ¬((t.data.dropLast).isEmpty = true) := by
      rw [List.isEmpty_eq_true, ← List.length_eq_zero]
      simp [htdl]
      omega
    rw [hr, if_neg hcond]
    have hids : ∀ g, g < s.ids.length → g ∉ s.freeIDSlots → g ≠ x →
        t.ids.getD g 0 < s.data.length - 1 ∧
        t.revIDs.getD (t.ids.getD g 0) 0 = g := by
      intro g hg1 hg2 hgx
      obtain ⟨hqg, hqr⟩ := t5 g (by omega) (by rw [htf]; exact hg2)
      have hne : t.ids.getD g 0 ≠ s.data.length - 1 := by
        intro hc
        rw [hc, htlast] at hqr
        exact hgx hqr.symm
      rw [htdl] at hqg
      exact ⟨by omega, hqr⟩
    refine ⟨?_, htk, ?_, ?_, ?_, fun _ => by rw [htf],
      fun hc => absurd hc hL, rfl⟩
    · -- well-formedness of the popped state
      refine ⟨?_, ?_, ?_, ?_, ?_, ?_⟩
      · intro f hf
        simp only [List.mem_append, List.mem_singleton] at hf
        rcases hf with hf | hf
        · exact t1 f hf
        · rw [hf, htil]
          exact hid
      · show (t.freeIDSlots ++ [x]).Nodup
        rw [htf, List.nodup_append]
        refine ⟨hW2, by simp, ?_⟩
        intro a ha hb
        simp only [List.mem_singleton] at hb
        rw [hb] at ha
        exact hidf ha
      · simp only [List.length_dropLast, List.length_append,
          List.length_singleton, htf, htdl, htil]
        omega
      · simp only [List.length_dropLast, htdl, htrl, hW4]
      · intro g hg hgf
        have hg2 : g < t.ids.length := hg
        have hgf2 : g ∉ t.freeIDSlots ++ [x] := hgf
        simp only [List.mem_append, List.mem_singleton] at hgf2
        push_neg at hgf2
        obtain ⟨hgf1, hgx⟩ := hgf2
        rw [htf] at hgf1
        rw [htil] at hg2
        obtain ⟨hq1, hq2⟩ := hids g hg2 hgf1 hgx
        refine ⟨?_, ?_⟩
        · show t.ids.getD g 0 < (t.data.dropLast).length
          simp only [List.length_dropLast]
          omega
        · show (t.revIDs.dropLast).getD (t.ids.getD g 0) 0 = g
          rw [getD_dropLast (by rw [htrl, hW4]; omega)]
          exact hq2
      · intro q hq
        simp only [List.length_dropLast, htdl] at hq
        have hqt : q < t.data.length := by omega
        obtain ⟨ho1, ho2, ho3⟩ := t6 q (by omega)
        have hrq : (t.revIDs.dropLast).getD q 0 = t.revIDs.getD q 0 :=
          getD_dropLast (by rw [htrl, hW4]; omega)
        have hox : t.revIDs.getD q 0 ≠ x := by
          intro hc
          rw [hc, hxid3] at ho3
          omega
        show (t.revIDs.dropLast).getD q 0 < t.ids.length ∧
          (t.revIDs.dropLast).getD q 0 ∉ t.freeIDSlots ++ [x] ∧
          t.ids.getD ((t.revIDs.dropLast).getD q 0) 0 = q
        rw [hrq]
        refine ⟨ho1, ?_, ?_⟩
        · simp only [List.mem_append, List.mem_singleton]
          push_neg
          exact ⟨ho2, hox⟩
        · rw [ho3]
    · show (t.data.dropLast).length = s.data.length - 1
      simp only [List.length_dropLast]
      omega
    · intro g
      simp only [validID_iff, List.mem_append, List.mem_singleton, htil, htf]
      tauto
    · intro g hg hgx
      obtain ⟨hg1, hg2⟩ := (validID_iff s g).mp hg
      obtain ⟨hq1, hq2⟩ := hids g hg1 hg2 hgx
      show (t.data.dropLast)[t.ids.getD g 0]? = s.valueOf g
      rw [getElem?_dropLast_lt (by rw [htdl]; omega)]
      exact hval g hg1 hg2

/-- Full description of `remove` on a valid handle of a well-formed
state: the invariant is preserved, the handle itself (and only it)
becomes stale, every other live handle keeps its value, the store
shrinks by one, the handle index goes to the back of the free list, the
whole container is reset when the store becomes empty, and the dense
store is rearranged according to the chosen policy. -/
theorem remove_spec (s : Vector T) (x : Nat) (hW : s.Wf)
    (hv : s.validID x = true) :
    (s.remove x).Wf ∧
    (s.remove x).keepOrder = s.keepOrder ∧
    (s.remove x).data.length = s.data.length - 1 ∧
    (∀ g, ((s.remove x).validID g = true ↔ (s.validID g = true ∧ g ≠ x))) ∧
    (∀ g, s.validID g = true → g ≠ x →
      (s.remove x).valueOf g = s.valueOf g) ∧
    (1 < s.data.length →
      (s.remove x).freeIDSlots = s.freeIDSlots ++ [x]) ∧
    (s.data.length = 1 → s.remove x = ⟨s.keepOrder, [], [], [], []⟩) ∧
    (s.keepOrder = true →
      (s.remove x).data = s.data.eraseIdx (s.ids.getD x 0)) ∧
    (s.keepOrder = false →
      (s.remove x).data =
        (listSwap s.data (s.ids.getD x 0) (s.data.length - 1)).dropLast) := by
  obtain ⟨hx1, hx2⟩ := (validID_iff s x).mp hv
  obtain ⟨hW1, hW2, hW3, hW4, hW5, hW6⟩ := id hW
  obtain ⟨hpx, hrx⟩ := hW5 x hx1 hx2
  by_cases hko : s.keepOrder = true
  · -- order-preserving mode
    obtain ⟨l1, l2, l3, l4, l5, l6, l7, l8, l9⟩ :=
      shiftLoop_spec s (s.ids.getD x 0) hW hpx
    have hlast? :
        (s.shiftLoop (s.ids.getD x 0)).revIDs[s.data.length - 1]? = some x := by
      rw [l8 (s.data.length - 1), if_neg (by omega), if_neg (by omega),
        if_pos rfl, getElem?_eq_some_getD (by omega), hrx]
    have htlast : (s.shiftLoop (s.ids.getD x 0)).revIDs.getD
        (s.data.length - 1) 0 = x := by
      rw [List.getD_eq_getElem?_getD, hlast?]
      rfl
    have hr : s.remove x =
        (if ((s.shiftLoop (s.ids.getD x 0)).data.dropLast).isEmpty then
          Vector.clear { s.shiftLoop (s.ids.getD x 0) with
                         data := (s.shiftLoop (s.ids.getD x 0)).data.dropLast,
                         revIDs :=
                           (s.shiftLoop (s.ids.getD x 0)).revIDs.dropLast,
                         freeIDSlots :=
                           (s.shiftLoop (s.ids.getD x 0)).freeIDSlots ++ [x] }
        else { s.shiftLoop (s.ids.getD x 0) with
               data := (s.shiftLoop (s.ids.getD x 0)).data.dropLast,
               revIDs := (s.shiftLoop (s.ids.getD x 0)).revIDs.dropLast,
               freeIDSlots :=
                 (s.shiftLoop (s.ids.getD x 0)).freeIDSlots ++ [x] }) := by
      unfold Vector.remove
      rw [hko]
      rfl
    obtain ⟨p1, p2, p3, p4, p5, p6, p7, p8⟩ :=
      remove_post s (s.shiftLoop (s.ids.getD x 0)) (s.remove x) x hW hx1 hx2
        l1 l3 l4 l5 l6 htlast l9 l2 hr
    refine ⟨p1, p2, p3, p4, p5, p6, p7, ?_,
      (fun hc => by rw [hko] at hc; cases hc)⟩
    intro _
    rw [p8]
    apply List.ext_getElem?
    intro k
    rw [List.getElem?_dropLast, List.getElem?_eraseIdx, l5, l7 k]
    split_ifs <;> first
      | rfl
      | omega
      | (symm; apply List.getElem?_eq_none; omega)
  · -- swap-remove mode
    have hkof : s.keepOrder = false := by
      revert hko
      cases s.keepOrder <;> simp
    have hlid : s.revIDs.getD (s.revIDs.length - 1) 0 =
        s.revIDs.getD (s.data.length - 1) 0 := by
      rw [hW4]
    obtain ⟨ho1, ho2, ho3⟩ := hW6 (s.data.length - 1) (by omega)
    have ho1' : s.revIDs.getD (s.revIDs.length - 1) 0 < s.ids.length := by
      rw [hlid]
      exact ho1
    have ho2' : s.revIDs.getD (s.revIDs.length - 1) 0 ∉ s.freeIDSlots := by
      rw [hlid]
      exact ho2
    have hplid :
        s.ids.getD (s.revIDs.getD (s.revIDs.length - 1) 0) 0 =
          s.data.length - 1 := by
      rw [hlid]
      exact ho3
    have htW := wf_swapDataLocation s x
      (s.revIDs.getD (s.revIDs.length - 1) 0) hW hx1 hx2 ho1' ho2'
    have hpxr : s.ids.getD x 0 < s.revIDs.length := by omega
    have htlast :
        (s.swapDataLocation x
          (s.revIDs.getD (s.revIDs.length - 1) 0)).revIDs.getD
            (s.data.length - 1) 0 = x := by
      rw [revIDs_swapDataLocation, hplid,
        getD_listSwap hpxr (by omega), if_pos rfl, hrx]
    have hval : ∀ g, g < s.ids.length → g ∉ s.freeIDSlots →
        (s.swapDataLocation x
          (s.revIDs.getD (s.revIDs.length - 1) 0)).valueOf g =
          s.valueOf g := by
      intro g hg hgf
      exact valueOf_swapDataLocation s x _ g hW hx1 hx2 ho1' ho2' hg hgf
    have hr : s.remove x =
        (if ((s.swapDataLocation x
            (s.revIDs.getD (s.revIDs.length - 1) 0)).data.dropLast).isEmpty then
          Vector.clear { s.swapDataLocation x
              (s.revIDs.getD (s.revIDs.length - 1) 0) with
                         data := (s.swapDataLocation x
                           (s.revIDs.getD (s.revIDs.length - 1) 0)).data.dropLast,
                         revIDs := (s.swapDataLocation x
                           (s.revIDs.getD (s.revIDs.length - 1) 0)).revIDs.dropLast,
                         freeIDSlots := (s.swapDataLocation x
                           (s.revIDs.getD (s.revIDs.length - 1) 0)).freeIDSlots ++ [x] }
        else { s.swapDataLocation x
            (s.revIDs.getD (s.revIDs.length - 1) 0) with
               data := (s.swapDataLocation x
                 (s.revIDs.getD (s.revIDs.length - 1) 0)).data.dropLast,
               revIDs := (s.swapDataLocation x
                 (s.revIDs.getD (s.revIDs.length - 1) 0)).revIDs.dropLast,
               freeIDSlots := (s.swapDataLocation x
                 (s.revIDs.getD (s.revIDs.length - 1) 0)).freeIDSlots ++ [x] }) := by
      unfold Vector.remove
      rw [hkof]
      rfl
    obtain ⟨p1, p2, p3, p4, p5, p6, p7, p8⟩ :=
      remove_post s (s.swapDataLocation x
          (s.revIDs.getD (s.revIDs.length - 1) 0)) (s.remove x) x hW hx1 hx2
        htW (by simp) (by simp) (by simp) (by simp) htlast hval (by simp) hr
    refine ⟨p1, p2, p3, p4, p5, p6, p7,
      (fun hc => by rw [hkof] at hc; cases hc), ?_⟩
    intro _
    rw [p8, data_swapDataLocation, hplid]

/-! ## `clear`, traces and the live-handle characterisation -/

theorem wf_clear (s : Vector T) : s.clear.Wf := by
  refine ⟨?_, ?_, ?_, ?_, ?_, ?_⟩ <;> simp [Vector.clear]

theorem validID_clear (s : Vector T) (g : Nat) :
    s.clear.validID g = false := by
  simp [Vector.clear, Vector.validID]

theorem wf_step (s : Vector T) (op : Op T) (hW : s.Wf)
    (hL : s.legalOp op = true) :
    (s.step op).1.Wf := by
  cases op with
  | push v => exact wf_push s v hW
  | remove h => exact (remove_spec s h hW hL).1
  | clear => exact wf_clear s

theorem wf_runFrom (ops : List (Op T)) : ∀ (s : Vector T), s.Wf →
    s.legalFrom ops = true → (s.runFrom ops).1.Wf := by
  induction ops with
  | nil =>
      intro s hW _
      exact hW
  | cons op ops ih =>
      intro s hW hL
      rw [Vector.legalFrom, Bool.and_eq_true] at hL
      exact ih (s.step op).1 (wf_step s op hW hL.1) hL.2

theorem liveCount_eq (s : Vector T) (hW : s.Wf) :
    s.liveCount = s.data.length := by
  obtain ⟨hW1, hW2, hW3, hW4, hW5, hW6⟩ := hW
  have hsub : (Finset.range s.ids.length).filter
      (fun h => h ∈ s.freeIDSlots) = s.freeIDSlots.toFinset := by
    ext a
    simp only [Finset.mem_filter, Finset.mem_range, List.mem_toFinset]
    constructor
    · rintro ⟨_, hb⟩
      exact hb
    · intro ha
      exact ⟨hW1 a ha, ha⟩
  have hcard : ((Finset.range s.ids.length).filter
        (fun h => h ∈ s.freeIDSlots)).card +
      ((Finset.range s.ids.length).filter
        (fun h => ¬ h ∈ s.freeIDSlots)).card = s.ids.length := by
    rw [Finset.filter_card_add_filter_neg_card_eq_card, Finset.card_range]
  rw [hsub, List.toFinset_card_of_nodup hW2] at hcard
  unfold Vector.liveCount
  omega

theorem liveInLog_cons (e : Event) (log : List Event) (g : Nat) :
    LiveInLog (e :: log) g ↔
      (LiveInLog log g ∨
        (e = Event.pushed g ∧ Event.removed g ∉ log ∧
         Event.cleared ∉ log)) := by
  constructor
  · rintro ⟨l1, l2, heq, h2, h3⟩
    cases l1 with
    | nil =>
        rw [List.nil_append] at heq
        injection heq with he hl
        subst hl
        exact Or.inr ⟨he, h2, h3⟩
    | cons a l1 =>
        rw [List.cons_append] at heq
        injection heq with he hl
        exact Or.inl ⟨l1, l2, hl, h2, h3⟩
  · rintro (⟨l1, l2, heq, h2, h3⟩ | ⟨he, h2, h3⟩)
    · exact ⟨e :: l1, l2, by rw [heq, List.cons_append], h2, h3⟩
    · exact ⟨[], log, by rw [he, List.nil_append], h2, h3⟩

/-- The validity-partition induction: after any legal sequence of
operations from a well-formed state, a handle is valid exactly when the
event log certifies it live, or it was already valid at the start and the
log neither removes it nor clears the container. -/
theorem validID_runFrom (ops : List (Op T)) : ∀ (s : Vector T), s.Wf →
    s.legalFrom ops = true → ∀ g,
    ((s.runFrom ops).1.validID g = true ↔
      (LiveInLog (s.runFrom ops).2 g ∨
        (s.validID g = true ∧ Event.removed g ∉ (s.runFrom ops).2 ∧
         Event.cleared ∉ (s.runFrom ops).2))) := by
  induction ops with
  | nil =>
      intro s hW _ g
      constructor
      · intro hg
        exact Or.inr ⟨hg, by simp [Vector.runFrom]⟩
      · rintro (⟨l1, l2, heq, _, _⟩ | ⟨hg, _⟩)
        · rw [show (s.runFrom []).2 = [] from rfl] at heq
          exact absurd heq.symm (List.append_ne_nil_of_right_ne_nil l1 (by simp))
        · exact hg
  | cons op ops ih =>
      intro s hW hL g
      rw [Vector.legalFrom, Bool.and_eq_true] at hL
      have ihs := ih (s.step op).1 (wf_step s op hW hL.1) hL.2 g
      have hrun1 : (s.runFrom (op :: ops)).1 =
          ((s.step op).1.runFrom ops).1 := rfl
      have hrun2 : (s.runFrom (op :: ops)).2 =
          (s.step op).2 :: ((s.step op).1.runFrom ops).2 := rfl
      rw [hrun1, hrun2, liveInLog_cons, ihs]
      cases op with
      | push v =>
          have hstep : ((s.step (Op.push v)).1.validID g = true ↔
              (g = (s.push v).2 ∨ s.validID g = true)) :=
            validID_push s v hW g
          have hev : (s.step (Op.push v)).2 = Event.pushed (s.push v).2 := rfl
          rw [hstep, hev]
          by_cases hg : g = (s.push v).2
          · subst hg
            simp only [List.mem_cons]
            simp
            tauto
          · have hg2 : ¬ ((s.push v).2 = g) := fun hc => hg hc.symm
            simp only [List.mem_cons]
            simp [hg, hg2]
      | remove h =>
          have hstep : ((s.step (Op.remove h)).1.validID g = true ↔
              (s.validID g = true ∧ g ≠ h)) :=
            (remove_spec s h hW hL.1).2.2.2.1 g
          have hev : (s.step (Op.remove h)).2 = Event.removed h := rfl
          rw [hstep, hev]
          by_cases hg : g = h
          · subst hg
            simp only [List.mem_cons]
            simp
          · have hg2 : ¬ (h = g) := fun hc => hg hc.symm
            simp only [List.mem_cons]
            simp [hg, hg2]
      | clear =>
          have hstep : (s.step (Op.clear)).1.validID g = false :=
            validID_clear s g
          have hev : (s.step (Op.clear)).2 = Event.cleared := rfl
          rw [hev]
          simp only [List.mem_cons]
          simp [hstep]

/-! ## Access-range checks and unchecked `remove` -/

theorem swapOk_true (s : Vector T) (el1 el2 : Nat) (hW : s.Wf)
    (h1 : el1 < s.ids.length) (h1f : el1 ∉ s.freeIDSlots)
    (h2 : el2 < s.ids.length) (h2f : el2 ∉ s.freeIDSlots) :
    s.swapOk el1 el2 = true := by
  obtain ⟨hW1, hW2, hW3, hW4, hW5, hW6⟩ := hW
  obtain ⟨hp1, _⟩ := hW5 el1 h1 h1f
  obtain ⟨hp2, _⟩ := hW5 el2 h2 h2f
  unfold Vector.swapOk
  simp only [Bool.and_eq_true, decide_eq_true_eq]
  omega

theorem shiftLoopOkAux_true (n : Nat) : ∀ (s : Vector T) (i : Nat), s.Wf →
    Vector.shiftLoopOkAux n s i = true := by
  induction n with
  | zero =>
      intro s i _
      rfl
  | succ n ih =>
      intro s i hW
      simp only [Vector.shiftLoopOkAux]
      by_cases h : i + 1 < s.data.length
      · rw [if_pos h]
        obtain ⟨hW1, hW2, hW3, hW4, hW5, hW6⟩ := id hW
        obtain ⟨he1, he1f, _⟩ := hW6 i (by omega)
        obtain ⟨he2, he2f, _⟩ := hW6 (i + 1) h
        simp only [Bool.and_eq_true, decide_eq_true_eq]
        exact ⟨⟨⟨by omega, by omega⟩,
          swapOk_true s _ _ hW he1 he1f he2 he2f⟩,
          ih _ _ (wf_swapDataLocation s _ _ hW he1 he1f he2 he2f)⟩
      · rw [if_neg h]

theorem removeOk_true (s : Vector T) (x : Nat) (hW : s.Wf)
    (hv : s.validID x = true) : s.removeOk x = true := by
  obtain ⟨hx1, hx2⟩ := (validID_iff s x).mp hv
  obtain ⟨hW1, hW2, hW3, hW4, hW5, hW6⟩ := id hW
  obtain ⟨hpx, hrx⟩ := hW5 x hx1 hx2
  unfold Vector.removeOk
  simp only [Bool.and_eq_true, decide_eq_true_eq]
  refine ⟨⟨⟨hx1, by omega⟩, by omega⟩, ?_⟩
  by_cases hko : s.keepOrder = true
  · rw [if_pos hko]
    unfold Vector.shiftLoopOk
    exact shiftLoopOkAux_true _ s _ hW
  · rw [if_neg hko]
    obtain ⟨ho1, ho2, ho3⟩ := hW6 (s.data.length - 1) (by omega)
    have hlid : s.revIDs.getD (s.revIDs.length - 1) 0 =
        s.revIDs.getD (s.data.length - 1) 0 := by
      rw [hW4]
    refine swapOk_true s _ _ hW hx1 hx2 ?_ ?_
    · rw [hlid]
      exact ho1
    · rw [hlid]
      exact ho2

theorem removeOk_oob (s : Vector T) (x : Nat) (hx : s.ids.length ≤ x) :
    s.removeOk x = false := by
  have hnx : ¬ (x < s.ids.length) := by omega
  unfold Vector.removeOk
  simp [hnx]

theorem shiftLoopAux_skeleton (n : Nat) : ∀ (s : Vector T) (i : Nat),
    (Vector.shiftLoopAux n s i).freeIDSlots = s.freeIDSlots ∧
    (Vector.shiftLoopAux n s i).data.length = s.data.length ∧
    (Vector.shiftLoopAux n s i).ids.length = s.ids.length := by
  induction n with
  | zero =>
      intro s i
      exact ⟨rfl, rfl, rfl⟩
  | succ n ih =>
      intro s i
      simp only [Vector.shiftLoopAux]
      by_cases h : i + 1 < s.data.length
      · rw [if_pos h]
        obtain ⟨ha, hb, hc⟩ := ih
          (s.swapDataLocation (s.revIDs.getD i 0) (s.revIDs.getD (i + 1) 0))
          (i + 1)
        rw [ha, hb, hc]
        simp
      · rw [if_neg h]
        exact ⟨rfl, rfl, rfl⟩

/-- On any state (well-formed or not) whose store keeps at least two
elements, `remove` appends the handle to the free list without a reset
and pops one element; no validity check is performed. -/
theorem remove_free_append (s : Vector T) (x : Nat)
    (hL : 1 < s.data.length) :
    (s.remove x).freeIDSlots = s.freeIDSlots ++ [x] ∧
    (s.remove x).data.length = s.data.length - 1 ∧
    (s.remove x).ids.length = s.ids.length := by
  have h1 : (if s.keepOrder then s.shiftLoop (s.ids.getD x 0)
      else s.swapDataLocation x
        (s.revIDs.getD (s.revIDs.length - 1) 0)).freeIDSlots =
      s.freeIDSlots ∧
      (if s.keepOrder then s.shiftLoop (s.ids.getD x 0)
      else s.swapDataLocation x
        (s.revIDs.getD (s.revIDs.length - 1) 0)).data.length =
      s.data.length ∧
      (if s.keepOrder then s.shiftLoop (s.ids.getD x 0)
      else s.swapDataLocation x
        (s.revIDs.getD (s.revIDs.length - 1) 0)).ids.length =
      s.ids.length := by
    by_cases hko : s.keepOrder = true
    · rw [if_pos hko]
      exact shiftLoopAux_skeleton _ s _
    · rw [if_neg hko]
      simp
  obtain ⟨ha, hb, hc⟩ := h1
  have hcond : ¬(((if s.keepOrder then s.shiftLoop (s.ids.getD x 0)
      else s.swapDataLocation x
        (s.revIDs.getD (s.revIDs.length - 1) 0)).data.dropLast).isEmpty
        = true) := by
    rw [List.isEmpty_eq_true, ← List.length_eq_zero]
    simp only [List.length_dropLast, hb]
    omega
  have hr : s.remove x = { (if s.keepOrder then s.shiftLoop (s.ids.getD x 0)
      else s.swapDataLocation x
        (s.revIDs.getD (s.revIDs.length - 1) 0)) with
      data := (if s.keepOrder then s.shiftLoop (s.ids.getD x 0)
        else s.swapDataLocation x
          (s.revIDs.getD (s.revIDs.length - 1) 0)).data.dropLast,
      revIDs := (if s.keepOrder then s.shiftLoop (s.ids.getD x 0)
        else s.swapDataLocation x
          (s.revIDs.getD (s.revIDs.length - 1) 0)).revIDs.dropLast,
      freeIDSlots := (if s.keepOrder then s.shiftLoop (s.ids.getD x 0)
        else s.swapDataLocation x
          (s.revIDs.getD (s.revIDs.length - 1) 0)).freeIDSlots ++ [x] } := by
    unfold Vector.remove
    rw [if_neg hcond]
  rw [hr]
  refine ⟨by rw [ha], ?_, by rw [hc]⟩
  simp only [List.length_dropLast, hb]

/-- Uniqueness of the live handle in a one-element container. -/
theorem valid_unique_of_singleton (s : Vector T) (hW : s.Wf)
    (hL : s.data.length = 1) (g1 g2 : Nat)
    (h1 : s.validID g1 = true) (h2 : s.validID g2 = true) : g1 = g2 := by
  obtain ⟨hW1, hW2, hW3, hW4, hW5, hW6⟩ := hW
  obtain ⟨ha1, hb1⟩ := (validID_iff s g1).mp h1
  obtain ⟨ha2, hb2⟩ := (validID_iff s g2).mp h2
  obtain ⟨hp1, hr1⟩ := hW5 g1 ha1 hb1
  obtain ⟨hp2, hr2⟩ := hW5 g2 ha2 hb2
  have e1 : s.ids.getD g1 0 = 0 := by omega
  have e2 : s.ids.getD g2 0 = 0 := by omega
  rw [e1] at hr1
  rw [e2] at hr2
  rw [← hr1, ← hr2]

/-- `removeNoReset` on a valid handle: same bookkeeping as `remove`
except that the reset-on-empty never fires. -/
theorem removeNoReset_spec (s : Vector T) (x : Nat) (hW : s.Wf)
    (hv : s.validID x = true) :
    (s.removeNoReset x).ids.length = s.ids.length ∧
    (s.removeNoReset x).freeIDSlots = s.freeIDSlots ++ [x] ∧
    (s.removeNoReset x).data.length = s.data.length - 1 ∧
    (∀ g, ((s.removeNoReset x).validID g = true ↔
      (s.validID g = true ∧ g ≠ x))) := by
  obtain ⟨hx1, hx2⟩ := (validID_iff s x).mp hv
  obtain ⟨hW1, hW2, hW3, hW4, hW5, hW6⟩ := id hW
  obtain ⟨hpx, hrx⟩ := hW5 x hx1 hx2
  have h1 : (if s.keepOrder then s.shiftLoop (s.ids.getD x 0)
      else s.swapDataLocation x
        (s.revIDs.getD (s.revIDs.length - 1) 0)).freeIDSlots =
      s.freeIDSlots ∧
      (if s.keepOrder then s.shiftLoop (s.ids.getD x 0)
      else s.swapDataLocation x
        (s.revIDs.getD (s.revIDs.length - 1) 0)).data.length =
      s.data.length ∧
      (if s.keepOrder then s.shiftLoop (s.ids.getD x 0)
      else s.swapDataLocation x
        (s.revIDs.getD (s.revIDs.length - 1) 0)).ids.length =
      s.ids.length := by
    by_cases hko : s.keepOrder = true
    · rw [if_pos hko]
      exact shiftLoopAux_skeleton _ s _
    · rw [if_neg hko]
      simp
  obtain ⟨ha, hb, hc⟩ := h1
  have hr : s.removeNoReset x =
      { (if s.keepOrder then s.shiftLoop (s.ids.getD x 0)
      else s.swapDataLocation x
        (s.revIDs.getD (s.revIDs.length - 1) 0)) with
      data := (if s.keepOrder then s.shiftLoop (s.ids.getD x 0)
        else s.swapDataLocation x
          (s.revIDs.getD (s.revIDs.length - 1) 0)).data.dropLast,
      revIDs := (if s.keepOrder then s.shiftLoop (s.ids.getD x 0)
        else s.swapDataLocation x
          (s.revIDs.getD (s.revIDs.length - 1) 0)).revIDs.dropLast,
      freeIDSlots := (if s.keepOrder then s.shiftLoop (s.ids.getD x 0)
        else s.swapDataLocation x
          (s.revIDs.getD (s.revIDs.length - 1) 0)).freeIDSlots ++ [x] } := by
    unfold Vector.removeNoReset
    rfl
  rw [hr]
  refine ⟨by rw [hc], by rw [ha], ?_, ?_⟩
  · simp only [List.length_dropLast, hb]
  · intro g
    simp only [validID_iff, List.length_set, ha, hc, List.mem_append,
      List.mem_singleton]
    tauto

/-! ## Claim theorems -/

theorem validID_remove_self (s : Vector T) (x : Nat) (hW : s.Wf)
    (hv : s.validID x = true) : (s.remove x).validID x = false := by
  rw [← Bool.not_eq_true, (remove_spec s x hW hv).2.2.2.1 x]
  simp

/-- Claim C1: over every legal operation sequence run from a fresh
container and every handle, `validID h` holds at the end iff `h` was
returned by some `push`/`emplace` and was since neither passed to
`remove` nor invalidated by a `clear` of the container. -/
theorem claim_c1 (T : Type) (ko : Bool) (ops : List (Op T)) (g : Nat)
    (hL : (Vector.empty T ko).legalFrom ops = true) :
    (((Vector.empty T ko).runFrom ops).1.validID g = true ↔
      LiveInLog ((Vector.empty T ko).runFrom ops).2 g) := by
  rw [validID_runFrom ops (Vector.empty T ko) (wf_empty T ko) hL g]
  have hv : (Vector.empty T ko).validID g = false := by
    simp [Vector.empty, Vector.validID]
  simp [hv]

theorem claim_c1_witness :
    ((Vector.empty String true).legalFrom
      [Op.push "a", Op.push "b", Op.remove 0] = true) ∧
    ((((Vector.empty String true).runFrom
      [Op.push "a", Op.push "b", Op.remove 0]).1.validID 0 = true ↔
      LiveInLog (((Vector.empty String true).runFrom
        [Op.push "a", Op.push "b", Op.remove 0])).2 0)) :=
  ⟨by decide, claim_c1 String true [Op.push "a", Op.push "b", Op.remove 0]
    0 (by decide)⟩

/-- Claim C2: on any well-formed container state (the invariant holding
for every reachable state, by `wf_runFrom`), the handle returned by
`push v` (and `emplace v`) is immediately valid and checked `get` on it
yields `v`. -/
theorem claim_c2 (T : Type) (s : Vector T) (v : T) (hW : s.Wf) :
    (s.push v).1.validID (s.push v).2 = true ∧
    (s.push v).1.get (s.push v).2 = Except.ok (some v) ∧
    (s.emplace v).1.validID (s.emplace v).2 = true ∧
    (s.emplace v).1.get (s.emplace v).2 = Except.ok (some v) := by
  have h1 := (validID_push s v hW _).mpr (Or.inl rfl)
  have h2 := get_push s v hW
  rw [emplace_eq_push]
  exact ⟨h1, h2, h1, h2⟩

theorem claim_c2_witness :
    (((Vector.empty String true).push "a").1.Wf ∧
      ((((Vector.empty String true).push "a").1.push "v").1.validID
        ((((Vector.empty String true).push "a").1.push "v")).2 = true ∧
      (((Vector.empty String true).push "a").1.push "v").1.get
        ((((Vector.empty String true).push "a").1.push "v")).2 =
          Except.ok (some "v"))) :=
  ⟨by decide,
    ((claim_c2 String ((Vector.empty String true).push "a").1 "v"
      (by decide)).1),
    ((claim_c2 String ((Vector.empty String true).push "a").1 "v"
      (by decide)).2.1)⟩

/-- Claim C5 (amended from the data-model invariants): after every legal
operation sequence, every live handle's reverse-table entry at its
storage position is the handle itself, the reverse table and the dense
store have the same length, that length equals the number of live
handles, and no two live handles share a storage position. -/
theorem claim_c5 (T : Type) (ko : Bool) (ops : List (Op T))
    (hL : (Vector.empty T ko).legalFrom ops = true) :
    ((∀ g, ((Vector.empty T ko).runFrom ops).1.validID g = true →
      ((Vector.empty T ko).runFrom ops).1.revIDs.getD
        (((Vector.empty T ko).runFrom ops).1.indexOf g) 0 = g) ∧
    ((Vector.empty T ko).runFrom ops).1.revIDs.length =
      ((Vector.empty T ko).runFrom ops).1.data.length ∧
    ((Vector.empty T ko).runFrom ops).1.data.length =
      ((Vector.empty T ko).runFrom ops).1.liveCount ∧
    (∀ g1 g2, ((Vector.empty T ko).runFrom ops).1.validID g1 = true →
      ((Vector.empty T ko).runFrom ops).1.validID g2 = true →
      ((Vector.empty T ko).runFrom ops).1.indexOf g1 =
        ((Vector.empty T ko).runFrom ops).1.indexOf g2 → g1 = g2)) := by
  have hW := wf_runFrom ops (Vector.empty T ko) (wf_empty T ko) hL
  obtain ⟨hW1, hW2, hW3, hW4, hW5, hW6⟩ := id hW
  refine ⟨?_, hW4, (liveCount_eq _ hW).symm, ?_⟩
  · intro g hg
    obtain ⟨h1, h2⟩ := (validID_iff _ g).mp hg
    exact (hW5 g h1 h2).2
  · intro g1 g2 hg1 hg2 heq
    obtain ⟨h11, h12⟩ := (validID_iff _ g1).mp hg1
    obtain ⟨h21, h22⟩ := (validID_iff _ g2).mp hg2
    have e1 := (hW5 g1 h11 h12).2
    have e2 := (hW5 g2 h21 h22).2
    have heq2 : (((Vector.empty T ko).runFrom ops).1).ids.getD g1 0 =
        (((Vector.empty T ko).runFrom ops).1).ids.getD g2 0 := heq
    rw [← e1, heq2]
    exact e2

theorem claim_c5_witness :
    ((Vector.empty String true).legalFrom [Op.push "a", Op.push "b"]
      = true) ∧
    (((Vector.empty String true).runFrom
      [Op.push "a", Op.push "b"]).1.data.length =
      ((Vector.empty String true).runFrom
        [Op.push "a", Op.push "b"]).1.liveCount) :=
  ⟨by decide,
    (claim_c5 String true [Op.push "a", Op.push "b"] (by decide)).2.2.1⟩

/-- Claim C6: `get` fails with `outOfBounds` ("ID out of bounds.")
exactly on indices outside the slot table, fails with `deleted` ("The
object with this id has been deleted.") exactly on in-range recycled
indices, and succeeds in every other case; on a well-formed state the
successful access is in range and returns a value.  `get` reads the
state and mutates nothing (it is modelled as a pure function of the
state). -/
theorem claim_c6 (T : Type) (s : Vector T) (x : Nat) :
    (s.get x = Except.error GetError.outOfBounds ↔ s.ids.length ≤ x) ∧
    (s.get x = Except.error GetError.deleted ↔
      (x < s.ids.length ∧ x ∈ s.freeIDSlots)) ∧
    ((∃ r, s.get x = Except.ok r) ↔ s.validID x = true) ∧
    (s.Wf → s.validID x = true →
      ∃ v, s.get x = Except.ok (some v)) := by
  by_cases hv : s.validID x = true
  · obtain ⟨h1, h2⟩ := (validID_iff s x).mp hv
    have hget : s.get x = Except.ok s.data[s.ids.getD x 0]? := by
      unfold Vector.get
      rw [if_pos hv]
    rw [hget]
    refine ⟨?_, ?_, ?_, ?_⟩
    · simp
      omega
    · simp [h2]
    · simp [hv]
    · intro hWf _
      obtain ⟨hW1, hW2, hW3, hW4, hW5, hW6⟩ := hWf
      obtain ⟨hp, _⟩ := hW5 x h1 h2
      rw [List.getElem?_eq_getElem hp]
      exact ⟨_, rfl⟩
  · have hgf : s.get x =
        (if x < s.ids.length then Except.error GetError.deleted
         else Except.error GetError.outOfBounds) := by
      unfold Vector.get
      rw [if_neg hv]
    by_cases hx : x < s.ids.length
    · have hmem : x ∈ s.freeIDSlots := by
        by_contra hc
        exact hv ((validID_iff s x).mpr ⟨hx, hc⟩)
      rw [hgf, if_pos hx]
      refine ⟨?_, ?_, ?_, fun _ hcv => absurd hcv hv⟩
      · simp
        omega
      · simp [hx, hmem]
      · simp [hv]
    · rw [hgf, if_neg hx]
      refine ⟨?_, ?_, ?_, fun _ hcv => absurd hcv hv⟩
      · simp
        omega
      · simp [hx]
      · simp [hv]

theorem claim_c6_witness :
    (((Vector.empty String true).push "a").1.Wf ∧
      ((Vector.empty String true).push "a").1.validID 0 = true ∧
      ∃ v, ((Vector.empty String true).push "a").1.get 0 =
        Except.ok (some v)) :=
  ⟨by decide, by decide,
    (claim_c6 String ((Vector.empty String true).push "a").1 0).2.2.2
      (by decide) (by decide)⟩

/-- Claim C3: in an order-preserving container, removing a live handle
erases exactly its storage slot (shifting every later element one slot
toward the front, order preserved), shrinks the store by one, keeps the
value of every other live handle, and invalidates the removed handle —
together with the concrete A/B/C/D scenario of the spec. -/
theorem claim_c3 :
    (∀ (T : Type) (s : Vector T) (x : Nat), s.Wf → s.validID x = true →
      s.keepOrder = true →
      (s.remove x).data = s.data.eraseIdx (s.ids.getD x 0) ∧
      (s.remove x).size = s.size - 1 ∧
      (∀ g, s.validID g = true → g ≠ x →
        (s.remove x).valueOf g = s.valueOf g) ∧
      (s.remove x).validID x = false) ∧
    (let s0 := Vector.empty String true
     let p0 := s0.push "A"
     let p1 := p0.1.push "B"
     let p2 := p1.1.push "C"
     let p3 := p2.1.push "D"
     let r := p3.1.remove p1.2
     p0.2 = 0 ∧ p1.2 = 1 ∧ p2.2 = 2 ∧ p3.2 = 3 ∧
     r.dataAt 0 = some "A" ∧ r.dataAt 1 = some "C" ∧
     r.dataAt 2 = some "D" ∧
     r.get p0.2 = Except.ok (some "A") ∧
     r.get p2.2 = Except.ok (some "C") ∧
     r.get p3.2 = Except.ok (some "D") ∧
     r.validID p1.2 = false ∧ r.size = 3) := by
  constructor
  · intro T s x hW hv hko
    obtain ⟨q1, q2, q3, q4, q5, q6, q7, q8, q9⟩ := remove_spec s x hW hv
    exact ⟨q8 hko, q3, q5, validID_remove_self s x hW hv⟩
  · decide

theorem claim_c3_witness :
    (let s : Vector String := ⟨true, ["A", "B"], [0, 1], [0, 1], []⟩
     s.Wf ∧ s.validID 1 = true ∧ s.keepOrder = true ∧
     (s.remove 1).data = s.data.eraseIdx (s.ids.getD 1 0) ∧
     (s.remove 1).validID 1 = false) :=
  ⟨by decide, by decide, by decide,
    ((claim_c3.1 String ⟨true, ["A", "B"], [0, 1], [0, 1], []⟩ 1
      (by decide) (by decide) (by decide)).1),
    ((claim_c3.1 String ⟨true, ["A", "B"], [0, 1], [0, 1], []⟩ 1
      (by decide) (by decide) (by decide)).2.2.2)⟩

/-- Claim C4: in a swap-remove container, removing a live handle swaps
its storage position with the last position and pops the store,
shrinking it by one; handle-addressed values of the other live handles
are unchanged — together with the concrete A/B/C scenario of the
spec. -/
theorem claim_c4 :
    (∀ (T : Type) (s : Vector T) (x : Nat), s.Wf → s.validID x = true →
      s.keepOrder = false →
      (s.remove x).data =
        (listSwap s.data (s.ids.getD x 0) (s.data.length - 1)).dropLast ∧
      (s.remove x).size = s.size - 1 ∧
      (∀ g, s.validID g = true → g ≠ x →
        (s.remove x).valueOf g = s.valueOf g) ∧
      (s.remove x).validID x = false) ∧
    (let s0 := Vector.empty String false
     let p0 := s0.push "A"
     let p1 := p0.1.push "B"
     let p2 := p1.1.push "C"
     let r := p2.1.remove p0.2
     p0.2 = 0 ∧ p1.2 = 1 ∧ p2.2 = 2 ∧
     r.validID p0.2 = false ∧ r.validID p1.2 = true ∧
     r.validID p2.2 = true ∧
     r.get p1.2 = Except.ok (some "B") ∧
     r.get p2.2 = Except.ok (some "C") ∧ r.size = 2) := by
  constructor
  · intro T s x hW hv hko
    obtain ⟨q1, q2, q3, q4, q5, q6, q7, q8, q9⟩ := remove_spec s x hW hv
    exact ⟨q9 hko, q3, q5, validID_remove_self s x hW hv⟩
  · decide

theorem claim_c4_witness :
    (let s : Vector String := ⟨false, ["A", "B"], [0, 1], [0, 1], []⟩
     s.Wf ∧ s.validID 0 = true ∧ s.keepOrder = false ∧
     (s.remove 0).data =
       (listSwap s.data (s.ids.getD 0 0) (s.data.length - 1)).dropLast ∧
     (s.remove 0).validID 0 = false) :=
  ⟨by decide, by decide, by decide,
    ((claim_c4.1 String ⟨false, ["A", "B"], [0, 1], [0, 1], []⟩ 0
      (by decide) (by decide) (by decide)).1),
    ((claim_c4.1 String ⟨false, ["A", "B"], [0, 1], [0, 1], []⟩ 0
      (by decide) (by decide) (by decide)).2.2.2)⟩

/-- Claim C7 (amended): removing the last remaining live element resets
all bookkeeping to empty, `size() == 0`, and every previously issued
handle is stale; compared to not resetting, the size, the validity of
every handle, and the success/failure of every checked access are
unchanged — but the error *category* reported by `get` on a
previously-issued handle differs (see `claim_c7_counterexample`), so the
reset is not fully unobservable. -/
theorem claim_c7 (T : Type) (s : Vector T) (x : Nat) (hW : s.Wf)
    (hv : s.validID x = true) (hL : s.data.length = 1) :
    s.remove x = ⟨s.keepOrder, [], [], [], []⟩ ∧
    (s.remove x).size = 0 ∧
    (∀ g, (s.remove x).validID g = false) ∧
    (s.removeNoReset x).size = 0 ∧
    (∀ g, (s.removeNoReset x).validID g = (s.remove x).validID g) ∧
    (∀ g, ∃ e1 e2, (s.remove x).get g = Except.error e1 ∧
      (s.removeNoReset x).get g = Except.error e2) := by
  obtain ⟨q1, q2, q3, q4, q5, q6, q7, q8, q9⟩ := remove_spec s x hW hv
  obtain ⟨n1, n2, n3, n4⟩ := removeNoReset_spec s x hW hv
  have hre := q7 hL
  have hvr : ∀ g, (s.remove x).validID g = false := by
    intro g
    rw [hre]
    simp [Vector.validID]
  have hvn : ∀ g, (s.removeNoReset x).validID g = false := by
    intro g
    rw [← Bool.not_eq_true, n4 g]
    rintro ⟨hg, hgx⟩
    exact hgx (valid_unique_of_singleton s hW hL g x hg hv)
  refine ⟨hre, by rw [hre]; rfl, hvr, ?_, ?_, ?_⟩
  · show (s.removeNoReset x).data.length = 0
    omega
  · intro g
    rw [hvr g, hvn g]
  · intro g
    have hr : ¬ ((s.remove x).validID g = true) := by
      rw [hvr g]
      simp
    have hn : ¬ ((s.removeNoReset x).validID g = true) := by
      rw [hvn g]
      simp
    unfold Vector.get
    rw [if_neg hr, if_neg hn]
    by_cases h1 : g < (s.remove x).ids.length
    · rw [if_pos h1]
      by_cases h2 : g < (s.removeNoReset x).ids.length
      · rw [if_pos h2]
        exact ⟨_, _, rfl, rfl⟩
      · rw [if_neg h2]
        exact ⟨_, _, rfl, rfl⟩
    · rw [if_neg h1]
      by_cases h2 : g < (s.removeNoReset x).ids.length
      · rw [if_pos h2]
        exact ⟨_, _, rfl, rfl⟩
      · rw [if_neg h2]
        exact ⟨_, _, rfl, rfl⟩

theorem claim_c7_witness :
    (let s : Vector String := ((Vector.empty String true).push "a").1
     s.Wf ∧ s.validID 0 = true ∧ s.data.length = 1 ∧
     (s.remove 0 = ⟨true, [], [], [], []⟩ ∧ (s.remove 0).size = 0)) :=
  ⟨by decide, by decide, by decide,
    (claim_c7 String ((Vector.empty String true).push "a").1 0
      (by decide) (by decide) (by decide)).1,
    (claim_c7 String ((Vector.empty String true).push "a").1 0
      (by decide) (by decide) (by decide)).2.1⟩

/-- Claim C7, counterexample to the unamended claim: after `push`
followed by `remove` of the only element, the reset makes a later
`get` on the old handle report "ID out of bounds.", whereas without the
reset it would report "The object with this id has been deleted." — an
externally observable difference. -/
theorem claim_c7_counterexample :
    (let s : Vector String := ((Vector.empty String true).push "a").1
     (s.remove 0).get 0 = Except.error GetError.outOfBounds ∧
     (s.removeNoReset 0).get 0 = Except.error GetError.deleted ∧
     (s.remove 0).get 0 ≠ (s.removeNoReset 0).get 0) := by
  decide

/-- Claim C8: `push`/`emplace` allocate the returned handle from the
back of the free list when it is non-empty (last recycled first — in
particular the handle freed by an immediately preceding `remove`), and
otherwise append a fresh slot whose index is the slot table's previous
length. -/
theorem claim_c8 (T : Type) (s : Vector T) (v : T) :
    (s.emplace v = s.push v) ∧
    (s.freeIDSlots = [] →
      (s.push v).2 = s.ids.length ∧
      (s.push v).1.ids = s.ids ++ [s.data.length]) ∧
    (∀ f, s.freeIDSlots.getLast? = some f →
      (s.push v).2 = f ∧
      (s.push v).1.freeIDSlots = s.freeIDSlots.dropLast) ∧
    (∀ x, s.Wf → s.validID x = true → 1 < s.data.length →
      ((s.remove x).push v).2 = x) := by
  refine ⟨rfl, ?_, ?_, ?_⟩
  · intro hf
    rw [push_eq_fresh s v hf]
    exact ⟨rfl, rfl⟩
  · intro f hf
    rw [push_eq_reuse s v f hf]
    exact ⟨rfl, rfl⟩
  · intro x hW hv hL2
    have q6 := (remove_spec s x hW hv).2.2.2.2.2.1
    have hfl : ((s.remove x).freeIDSlots).getLast? = some x := by
      rw [q6 hL2]
      exact List.getLast?_concat _
    rw [push_eq_reuse _ v x hfl]

theorem claim_c8_witness :
    (let s : Vector String :=
      ((((Vector.empty String true).push "a").1.push "b").1.push "c").1
     s.Wf ∧ s.validID 0 = true ∧ 1 < s.data.length ∧
     ((s.remove 0).push "d").2 = 0) :=
  ⟨by decide, by decide, by decide,
    (claim_c8 String
      ((((Vector.empty String true).push "a").1.push "b").1.push "c").1
      "d").2.2.2 0 (by decide) (by decide) (by decide)⟩

/-- Claim C9: `reserve` changes no observable state and no handle's
validity; its slot-table reservation amount is the `size_t` expression
`numElements - m_FreeIDSlots.size()`, which equals the intended amount
when the free list is no longer than the request, and wraps modulo
`2 ^ 64` to a value even larger than the request whenever the free list
holds more entries than requested. -/
theorem claim_c9 (T : Type) (s : Vector T) (n : Nat) :
    ((s.reserve n).1 = s ∧
    (∀ g, (s.reserve n).1.validID g = s.validID g) ∧
    (s.freeIDSlots.length ≤ n → n < 2 ^ 64 →
      (s.reserve n).2.2.1 = n - s.freeIDSlots.length) ∧
    (n < s.freeIDSlots.length → s.freeIDSlots.length < 2 ^ 64 →
      (s.reserve n).2.2.1 = 2 ^ 64 + n - s.freeIDSlots.length ∧
      n < (s.reserve n).2.2.1)) := by
  have h64 : (2 : Nat) ^ 64 = 18446744073709551616 := by norm_num
  refine ⟨rfl, fun g => rfl, ?_, ?_⟩
  · intro hle hn
    show usub n s.freeIDSlots.length = n - s.freeIDSlots.length
    unfold usub
    omega
  · intro hlt hf
    constructor
    · show usub n s.freeIDSlots.length = 2 ^ 64 + n - s.freeIDSlots.length
      unfold usub
      omega
    · show n < usub n s.freeIDSlots.length
      unfold usub
      omega

theorem claim_c9_witness :
    (let s : Vector String := ⟨true, [], [], [], [0, 1]⟩
     (1 < s.freeIDSlots.length ∧ s.freeIDSlots.length < 2 ^ 64) ∧
     (s.reserve 1).2.2.1 = 2 ^ 64 + 1 - s.freeIDSlots.length ∧
     1 < (s.reserve 1).2.2.1) :=
  ⟨⟨by decide, by norm_num⟩,
    (claim_c9 String ⟨true, [], [], [], [0, 1]⟩ 1).2.2.2
      (by decide) (by norm_num)⟩

/-- Claim C10 (amended): `remove` performs no validity check.  On a
well-formed state it keeps every raw access in range and preserves the
invariants exactly when the handle is valid; an out-of-range handle
makes the very first slot-table access out of bounds; an in-range but
already-freed handle is pushed onto the free list a second time whenever
at least two elements are stored, so the free list gains a duplicate
entry and the next `push` returns a handle that is simultaneously live
and on the free list (`validID` is false for it) — unless the container
held at most one element, in which case the reset-on-empty wipes the
free list instead (see `claim_c10_counterexample`). -/
theorem claim_c10 (T : Type) (s : Vector T) (x : Nat) (hW : s.Wf) :
    ((s.validID x = true → s.removeOk x = true ∧ (s.remove x).Wf) ∧
    (s.ids.length ≤ x → s.removeOk x = false) ∧
    (x < s.ids.length → x ∈ s.freeIDSlots → 1 < s.data.length →
      (s.remove x).freeIDSlots = s.freeIDSlots ++ [x] ∧
      2 ≤ ((s.remove x).freeIDSlots).count x ∧
      (∀ v : T, ((s.remove x).push v).2 = x ∧
        x ∈ ((s.remove x).push v).1.freeIDSlots ∧
        ((s.remove x).push v).1.validID x = false))) := by
  refine ⟨?_, removeOk_oob s x, ?_⟩
  · intro hv
    exact ⟨removeOk_true s x hW hv, (remove_spec s x hW hv).1⟩
  · intro hx hmem hL
    obtain ⟨ha, hb, hc⟩ := remove_free_append s x hL
    refine ⟨ha, ?_, ?_⟩
    · rw [ha, List.count_append, List.count_singleton_self]
      have : 1 ≤ s.freeIDSlots.count x := List.one_le_count_iff.mpr hmem
      omega
    · intro v
      have hfl : ((s.remove x).freeIDSlots).getLast? = some x := by
        rw [ha]
        exact List.getLast?_concat _
      rw [push_eq_reuse _ v x hfl]
      refine ⟨rfl, ?_, ?_⟩
      · show x ∈ ((s.remove x).freeIDSlots).dropLast
        rw [ha, List.dropLast_concat]
        exact hmem
      · rw [← Bool.not_eq_true, validID_iff]
        rintro ⟨_, hnm⟩
        have hnm2 : x ∉ ((s.remove x).freeIDSlots).dropLast := hnm
        rw [ha, List.dropLast_concat] at hnm2
        exact hnm2 hmem

theorem claim_c10_witness :
    (let s : Vector String :=
      (((((Vector.empty String true).push "a").1.push "b").1.push
        "c").1.remove 0)
     s.Wf ∧ (0 < s.ids.length ∧ 0 ∈ s.freeIDSlots ∧ 1 < s.data.length) ∧
     2 ≤ ((s.remove 0).freeIDSlots).count 0 ∧
     ((s.remove 0).push "d").1.validID 0 = false) :=
  ⟨by decide, ⟨by decide, by decide, by decide⟩,
    ((claim_c10 String
      (((((Vector.empty String true).push "a").1.push "b").1.push
        "c").1.remove 0) 0 (by decide)).2.2 (by decide) (by decide)
        (by decide)).2.1,
    (((claim_c10 String
      (((((Vector.empty String true).push "a").1.push "b").1.push
        "c").1.remove 0) 0 (by decide)).2.2 (by decide) (by decide)
        (by decide)).2.2 "d").2.2⟩

/-- Claim C10, counterexample to the unamended claim: removing an
in-range but already-freed handle from a container holding exactly one
element triggers the reset-on-empty, so the free list ends up empty —
no duplicate free-list entry arises at that input. -/
theorem claim_c10_counterexample :
    (let s : Vector String :=
      ((((Vector.empty String true).push "a").1.push "b").1.remove 0)
     (0 < s.ids.length ∧ 0 ∈ s.freeIDSlots) ∧
     (s.remove 0).freeIDSlots = [] ∧
     ((s.remove 0).freeIDSlots).count 0 = 0) := by
  decide

end fiv
